import Mathlib

/-!
Verification development for the chain-rpc repository.

Shallow embedding of the pure decision logic of the two core subsystems:
the concurrent endpoint prober (`pkg/rpc/tester.go`) and the chain
directory cache (`pkg/chain`).  Network and file-system effects are
modelled by explicit outcome/state parameters; every decision function is
translated from the Go source.
-/

set_option autoImplicit false

deriving instance DecidableEq for Except

namespace ChainRpc

/-! ### Go standard-library string primitives used by the source -/

/-- `strings.HasPrefix s p` -/
def strHasPrefix (s p : String) : Bool :=
  p.data.isPrefixOf s.data

/-- `strings.Contains s sub` -/
def strContains (s sub : String) : Bool :=
  decide (sub.data <:+: s.data)

/-- Leading-whitespace trim, the building block of `strings.TrimSpace`. -/
def dropWS (l : List Char) : List Char :=
  l.dropWhile Char.isWhitespace

/-- `strings.TrimSpace` on the character list of a string. -/
def trimChars (l : List Char) : List Char :=
  ((dropWS l).reverse.dropWhile Char.isWhitespace).reverse

/-! ### `strconv.ParseUint` (bases 10 and 0, bitSize 64) -/

/-- Digit value of a character in the `strconv` digit loop:
`0-9`, then `a-z`/`A-Z` as 10..35. -/
def digitVal? (c : Char) : Option Nat :=
  if '0' ≤ c ∧ c ≤ '9' then some (c.toNat - 48)
  else if 'a' ≤ c ∧ c ≤ 'z' then some (c.toNat - 97 + 10)
  else if 'A' ≤ c ∧ c ≤ 'Z' then some (c.toNat - 65 + 10)
  else none

/-- One step of the `strconv.ParseUint` digit-accumulation loop.
`base0` tells whether the original call had base 0, in which case
underscores are provisionally skipped.  Overflow past `2^64 - 1`
(Go's range error) and invalid digits (Go's syntax error) are `none`. -/
def parseUintStep (base : Nat) (base0 : Bool) (acc : Option Nat) (c : Char) : Option Nat :=
  match acc with
  | none => none
  | some n =>
    if c = '_' ∧ base0 then some n
    else
      match digitVal? c with
      | none => none
      | some d =>
        if d < base then
          let n1 := n * base + d
          if n1 < 2 ^ 64 then some n1 else none
        else none

/-- The `strconv.ParseUint` digit loop over the post-prefix characters. -/
def parseUintLoop (base : Nat) (base0 : Bool) (l : List Char) : Option Nat :=
  l.foldl (parseUintStep base base0) (some 0)

/-- `strconv.ParseUint(s, 10, 64)` — as called by the streaming locator
on the keys of the `byId` section. -/
def parseUintDec64 (s : String) : Option Nat :=
  if s.data.isEmpty then none else parseUintLoop 10 false s.data

/-- State of `strconv`'s `underscoreOK` scan. -/
inductive USaw where
  | start
  | digit
  | under
  | other
deriving DecidableEq, Repr

/-- The character-class loop of `strconv`'s `underscoreOK`. -/
def underscoreLoop (hex : Bool) : USaw → List Char → Bool
  | saw, [] => decide (saw ≠ .under)
  | saw, c :: rest =>
    if ('0' ≤ c ∧ c ≤ '9') ∨ (hex ∧ (('a' ≤ c ∧ c ≤ 'f') ∨ ('A' ≤ c ∧ c ≤ 'F'))) then
      underscoreLoop hex .digit rest
    else if c = '_' then
      if saw = .digit then underscoreLoop hex .under rest else false
    else if saw = .under then false
    else underscoreLoop hex .other rest

/-- `strconv.underscoreOK`: underscores may only separate digits
(the base prefix counting as a digit). -/
def underscoreOK (s : List Char) : Bool :=
  let s1 := match s with
    | c :: rest => if c = '-' ∨ c = '+' then rest else s
    | [] => s
  match s1 with
  | '0' :: c :: rest =>
    if c = 'b' ∨ c = 'B' ∨ c = 'o' ∨ c = 'O' ∨ c = 'x' ∨ c = 'X' then
      underscoreLoop (c = 'x' ∨ c = 'X') .digit rest
    else underscoreLoop false .start s1
  | _ => underscoreLoop false .start s1

/-- `strconv.ParseUint(s, 0, 64)` — as called by the probes on the
`result` string: base inferred from a `0b`/`0o`/`0x` prefix, a bare
leading `0` meaning octal, underscores allowed between digits. -/
def parseUint0 (s : String) : Option Nat :=
  match s.data with
  | [] => none
  | s0 =>
    let p : Nat × List Char :=
      match s0 with
      | '0' :: c :: r =>
        if (c = 'b' ∨ c = 'B') ∧ r ≠ [] then (2, r)
        else if (c = 'o' ∨ c = 'O') ∧ r ≠ [] then (8, r)
        else if (c = 'x' ∨ c = 'X') ∧ r ≠ [] then (16, r)
        else (8, c :: r)
      | '0' :: [] => (8, [])
      | _ => (10, s0)
    match parseUintLoop p.1 true p.2 with
    | none => none
    | some n => if p.2.contains '_' ∧ ¬ underscoreOK s0 then none else some n

example : parseUint0 "0x1f" = some 31 := by decide
example : parseUint0 "017" = some 15 := by decide
example : parseUint0 "018" = none := by decide
example : parseUint0 "0o17" = some 15 := by decide
example : parseUint0 "0b101" = some 5 := by decide
example : parseUint0 "1_000" = some 1000 := by decide
example : parseUint0 "_100" = none := by decide
example : parseUint0 "1__0" = none := by decide
example : parseUint0 "0x_10" = some 16 := by decide
example : parseUint0 "0" = some 0 := by decide
example : parseUint0 "0x" = none := by decide
example : parseUint0 "" = none := by decide
example : parseUint0 "10" = some 10 := by decide
example : parseUintDec64 "137" = some 137 := by decide
example : parseUintDec64 "" = none := by decide
example : parseUintDec64 "0x10" = none := by decide

/-! ### Decimal rendering of a `uint64` map key
(`encoding/json` renders `map[uint64]*ChainData` keys via `strconv`,
in standard base-10 notation). Fuel-based so that it reduces. -/

/-- The character of a decimal digit. -/
def decDigitChar (d : Nat) : Char :=
  Char.ofNat (48 + d)

/-- Base-10 digit characters of `n`, most significant first; `fuel`
bounds the recursion depth and is sufficient whenever `n < fuel`. -/
def natDecDigitsAux : Nat → Nat → List Char
  | 0, _ => []
  | fuel + 1, n =>
    if n < 10 then [decDigitChar n]
    else natDecDigitsAux fuel (n / 10) ++ [decDigitChar (n % 10)]

/-- Base-10 digit characters of `n`, most significant first. -/
def natDecDigits (n : Nat) : List Char :=
  natDecDigitsAux (n + 1) n

/-- The JSON object key under which chain `n` is stored in the
persisted `byId` section. -/
def uint64Key (n : Nat) : String :=
  ⟨natDecDigits n⟩

example : uint64Key 137 = "137" := by decide
example : uint64Key 0 = "0" := by decide

/-! ### JSON-RPC response model (`pkg/rpc/tester.go`) -/

/-- A decoded JSON value, as Go's `any`; the probe only inspects
whether it is a string, so the other payloads are left abstract. -/
inductive JVal where
  | jnull
  | jbool (b : Bool)
  | jnum
  | jstr (s : String)
  | jarr
  | jobj
deriving DecidableEq, Repr

/-- `RPCError` (tester.go). -/
structure RPCError where
  code : Int
  message : String
deriving DecidableEq, Repr

/-- `RPCResponse` (tester.go); `Result` is `any`, `Error` a nullable
pointer. -/
structure RPCResponse where
  jsonrpc : String
  result : JVal
  error : Option RPCError
  id : Int
deriving DecidableEq, Repr

/-- Everything the HTTP transport can hand back to
`isHTTPRPCWorking`: a failed request construction, a transport error
from `client.Do`, or a status code with a body that either decodes as
an `RPCResponse` or does not. -/
inductive HTTPOutcome where
  | requestError
  | transportError
  | response (statusCode : Nat) (body : Option RPCResponse)
deriving DecidableEq, Repr

/-- Everything the WebSocket transport can hand back to
`isWebSocketRPCWorking`: URL-parse, dial, write, or read/decode
failure, or a decoded response. -/
inductive WSOutcome where
  | urlParseError
  | dialError
  | writeError
  | readError
  | response (resp : RPCResponse)
deriving DecidableEq, Repr

/-- The shared response checks of both probes (tester.go:392-406 and
455-469): no `error` field, string `result`, `strconv.ParseUint(_, 0, 64)`
succeeds, value equals `expectedChainID`. -/
def checkChainIDResponse (resp : RPCResponse) (expectedChainID : Nat) : Bool :=
  match resp.error with
  | some _ => false
  | none =>
    match resp.result with
    | .jstr chainIDHex =>
      match parseUint0 chainIDHex with
      | some chainID => chainID == expectedChainID
      | none => false
    | _ => false

/-- `isHTTPRPCWorking` (tester.go:353-407) over the transport outcome. -/
def isHTTPRPCWorking (o : HTTPOutcome) (expectedChainID : Nat) : Bool :=
  match o with
  | .requestError => false
  | .transportError => false
  | .response statusCode body =>
    if statusCode ≠ 200 then false
    else
      match body with
      | none => false
      | some resp => checkChainIDResponse resp expectedChainID

/-- `isWebSocketRPCWorking` (tester.go:409-470) over the transport
outcome. -/
def isWebSocketRPCWorking (o : WSOutcome) (expectedChainID : Nat) : Bool :=
  match o with
  | .response resp => checkChainIDResponse resp expectedChainID
  | _ => false

/-- `isWebSocketURL` (tester.go:349-351). -/
def isWebSocketURL (rpcURL : String) : Bool :=
  strHasPrefix rpcURL "wss://"

/-- The two probing transports. -/
inductive Transport where
  | websocket
  | http
deriving DecidableEq, Repr

/-- The dispatch of `isRPCWorkingWithTimeout` (tester.go:342-347). -/
def probeTransport (rpcURL : String) : Transport :=
  if isWebSocketURL rpcURL then .websocket else .http

/-- The error `ErrNoRPCsFound` (tester.go:262-264). -/
inductive RpcFindError where
  | errNoRPCsFound
deriving DecidableEq, Repr

/-- `FindAllWorkingRPCs` (tester.go:266-272), over the working set
`workingRPCs` collected by `findWorkingRPCsConcurrently`. -/
def FindAllWorkingRPCs (workingRPCs : List String) : Except RpcFindError (List String) :=
  if workingRPCs.length = 0 then .error .errNoRPCsFound
  else .ok workingRPCs

/-- `FindRandomWorkingRPC` (tester.go:274-284), over the collected
working set; `randSeed` models the value drawn from `rand`, reduced by
`Intn` to an index below the set's length. -/
def FindRandomWorkingRPC (workingRPCs : List String) (randSeed : Nat) :
    Except RpcFindError String :=
  if h : workingRPCs.length = 0 then .error .errNoRPCsFound
  else
    .ok (workingRPCs.get ⟨randSeed % workingRPCs.length,
      Nat.mod_lt _ (Nat.pos_of_ne_zero h)⟩)

/-! ### Chain directory data model (`pkg/chain`) -/

/-- `RPC` — one endpoint descriptor. -/
structure RPC where
  url : String
  tracking : String
deriving DecidableEq, Repr

/-- `NativeCurrency`. -/
structure NativeCurrency where
  name : String
  symbol : String
  decimals : Int
deriving DecidableEq, Repr

/-- `Explorer`. -/
structure Explorer where
  name : String
  url : String
  standard : String
deriving DecidableEq, Repr

/-- `ChainData` — one Chain Record. -/
structure ChainData where
  name : String
  chain : String
  rpcs : List RPC
  nativeCurrency : NativeCurrency
  shortName : String
  chainID : Nat
  explorers : List Explorer
  chainSlug : String
deriving DecidableEq, Repr

/-! Go maps are modelled as association lists with overwrite-on-insert;
lookup returns the binding of the first matching key. -/

/-- Lookup in a Go map model. -/
def lookupA {α β : Type} [DecidableEq α] (l : List (α × β)) (k : α) : Option β :=
  (l.find? (fun p => p.1 == k)).map Prod.snd

/-- Insert into a Go map model: overwrite the binding if the key is
present, append otherwise. -/
def insertA {α β : Type} [DecidableEq α] : List (α × β) → α → β → List (α × β)
  | [], k, v => [(k, v)]
  | p :: rest, k, v =>
    if p.1 == k then (k, v) :: rest else p :: insertA rest k v

/-- `CacheData` (pkg/chain): the two indexes. -/
structure CacheData where
  byID : List (Nat × ChainData)
  byName : List (String × Nat)
deriving DecidableEq, Repr

/-- `normalizeChainName` (pkg/chain):
`strings.ReplaceAll(strings.ToLower(strings.TrimSpace(name)), " ", "-")`.
`ToLower` is modelled by `Char.toLower`, `ReplaceAll " " "-"` as the
per-character replacement `normChar` it performs. -/
def normChar (c : Char) : Char :=
  if c.toLower = ' ' then '-' else c.toLower

def normalizeChainName (s : String) : String :=
  ⟨(trimChars s.data).map normChar⟩

example : normalizeChainName "  Ethereum Mainnet " = "ethereum-mainnet" := by decide

/-- The per-chain body of the indexing loop of `buildCache`
(tester.go:641-661): insert into `ByID`, and into `ByName` under each
non-empty normalized alias. -/
def addChainToCache (cd : CacheData) (c : ChainData) : CacheData :=
  let byID := insertA cd.byID c.chainID c
  let byName := cd.byName
  let byName := if c.name ≠ "" then insertA byName (normalizeChainName c.name) c.chainID else byName
  let byName := if c.shortName ≠ "" then insertA byName (normalizeChainName c.shortName) c.chainID else byName
  let byName := if c.chainSlug ≠ "" then insertA byName (normalizeChainName c.chainSlug) c.chainID else byName
  { byID := byID, byName := byName }

/-- The index construction of `buildCache` (tester.go:632-663) over a
decoded feed; the goroutines' per-chain bodies run under one mutex, so
the build is a fold over the records in some order. -/
def buildCacheData (chains : List ChainData) : CacheData :=
  chains.foldl addChainToCache { byID := [], byName := [] }

/-- A top-level field of the persisted cache document: the `byId`
section is a sequence of key/record entries; any other field is only
ever skipped by the locator, so its value stays abstract. -/
inductive CacheField where
  | entriesF (entries : List (String × ChainData))
  | opaqueF
deriving DecidableEq, Repr

/-- The `byId` section as `json.Marshal` persists it: each key is the
decimal rendering of the chain ID. -/
def serializeByID (m : List (Nat × ChainData)) : List (String × ChainData) :=
  m.map (fun p => (uint64Key p.1, p.2))

/-- The persisted cache document: `byId` first, then `byName`
(struct field order of `CacheData`). -/
def serializeCache (cd : CacheData) : List (String × CacheField) :=
  [("byId", .entriesF (serializeByID cd.byID)), ("byName", .opaqueF)]

/-- The chain-lookup errors of `pkg/chain`. -/
inductive ChainErr where
  | errChainNotFound
  | cacheDecodeError
  | nameNotFound (name : String)
  | ambiguousName (name : String) (matchKeys : List String)
deriving DecidableEq, Repr

/-- `findChainInByID` (tester.go:790-833): stream the `byId` entries,
skip keys that do not parse as `uint64`, decode the first entry whose
key equals the target. -/
def findChainInByID (entries : List (String × ChainData)) (targetChainId : Nat) :
    Except ChainErr ChainData :=
  match entries with
  | [] => .error .errChainNotFound
  | (key, value) :: rest =>
    match parseUintDec64 key with
    | none => findChainInByID rest targetChainId
    | some chainId =>
      if chainId = targetChainId then .ok value
      else findChainInByID rest targetChainId

/-- `loadChainByID` (tester.go:679-713): walk the top-level fields,
dive into `byId` when found, skip every other value; a document
without a `byId` section ends in `ErrChainNotFound`. -/
def loadChainByID (doc : List (String × CacheField)) (chainId : Nat) :
    Except ChainErr ChainData :=
  match doc with
  | [] => .error .errChainNotFound
  | (key, value) :: rest =>
    if key = "byId" then
      match value with
      | .entriesF entries => findChainInByID entries chainId
      | .opaqueF => .error .cacheDecodeError
    else loadChainByID rest chainId

/-- The alias keys matching a query by substring
(the loop of `findChainIdByPartialMatch`, tester.go:770-775). -/
def matchingAliasKeys (nameMapping : List (String × Nat)) (name : String) : List String :=
  (nameMapping.map Prod.fst).filter (fun key => strContains key name)

/-- The message of the multiple-match error (tester.go:780-784). -/
def ambiguousErrMsg (name : String) (matchingKeys : List String) : String :=
  let errMsg := matchingKeys.foldl (fun acc key => acc ++ "- " ++ key ++ "\n")
    ("found multiple chains matching \x27" ++ name ++ "\x27:\n")
  errMsg ++ " \nPlease specify a more precise name"

/-- `findChainIdByPartialMatch` (tester.go:769-788). -/
def findChainIdByPartialMatch (nameMapping : List (String × Nat)) (name : String) :
    Except ChainErr Nat :=
  let matchingKeys := matchingAliasKeys nameMapping name
  if matchingKeys.length = 1 then
    .ok ((lookupA nameMapping (matchingKeys.headD "")).getD 0)
  else if matchingKeys.length > 1 then
    .error (.ambiguousName name matchingKeys)
  else .error (.nameNotFound name)

/-- `findChainIDByName` (tester.go:743-767): exact lookup, then the
`ethereum-`-decorated, `-mainnet`-decorated and bare substring
fallbacks, each tried when the previous one returned any error. -/
def findChainIDByName (nameMapping : List (String × Nat)) (normalizedName : String) :
    Except ChainErr Nat :=
  match lookupA nameMapping normalizedName with
  | some chainID => .ok chainID
  | none =>
    match findChainIdByPartialMatch nameMapping ("ethereum-" ++ normalizedName) with
    | .ok chainId => .ok chainId
    | .error _ =>
      match findChainIdByPartialMatch nameMapping (normalizedName ++ "-mainnet") with
      | .ok chainId => .ok chainId
      | .error _ => findChainIdByPartialMatch nameMapping normalizedName

/-! ### Cache lifecycle (`ensureCacheExists`, tester.go:580-611) -/

/-- `CACHE_TTL = 30 * 24 * time.Hour`, in nanoseconds. -/
def CACHE_TTL : Nat := 30 * 24 * 60 * 60 * 1000000000

/-- The environment `ensureCacheExists` reads: the `forceRebuild`
flag, whether the cache file exists, its age (nanoseconds since
modification), and whether `buildCache()` would succeed. -/
structure CacheEnv where
  forceRebuild : Bool
  cacheFileExists : Bool
  cacheAge : Nat
  buildSucceeds : Bool
deriving DecidableEq, Repr

/-- What `ensureCacheExists` did: whether it invoked `buildCache`, and
whether it returned an error. -/
structure EnsureOutcome where
  rebuilt : Bool
  failed : Bool
deriving DecidableEq, Repr

/-- `ensureCacheExists` (tester.go:580-611). -/
def ensureCacheExists (env : CacheEnv) : EnsureOutcome :=
  let cacheExists := !env.forceRebuild && env.cacheFileExists && decide (env.cacheAge < CACHE_TTL)
  if cacheExists then { rebuilt := false, failed := false }
  else if env.buildSucceeds then { rebuilt := true, failed := false }
  else if env.cacheFileExists then { rebuilt := true, failed := false }
  else { rebuilt := true, failed := true }

/-! ### Definitions following the spec's words, for the refinement
claims (each compared against the definitions taken from the source) -/

/-- Modelled from the spec: a string that "parses as an integer
(hex-prefixed or decimal)" — hexadecimal after a `0x`/`0X` prefix,
plain decimal otherwise; 64-bit unsigned range. -/
def specParseIntHexOrDec (s : String) : Option Nat :=
  match s.data with
  | [] => none
  | '0' :: x :: r =>
    if x = 'x' ∨ x = 'X' then (if r = [] then none else parseUintLoop 16 false r)
    else parseUintLoop 10 false s.data
  | l => parseUintLoop 10 false l

/-- Modelled from the spec: the endpoint is working iff the transport
connects, the response is well-formed JSON-RPC with no `error` field,
`result` is a string, and that string parses (hex-prefixed or decimal)
to `expectedChainID`; for HTTP the status must be 200. -/
def specWorkingHTTP (o : HTTPOutcome) (expectedChainID : Nat) : Bool :=
  match o with
  | .response 200 (some resp) =>
    match resp.error with
    | some _ => false
    | none =>
      match resp.result with
      | .jstr s =>
        match specParseIntHexOrDec s with
        | some n => n == expectedChainID
        | none => false
      | _ => false
  | _ => false

/-- Modelled from the spec: "URLs beginning with a WebSocket scheme"
(`ws` or `wss`). -/
def specIsWebSocketURL (rpcURL : String) : Bool :=
  strHasPrefix rpcURL "ws://" || strHasPrefix rpcURL "wss://"

/-- Modelled from the spec (claim C3's reading of the four tiers):
tier 1 exact key match, tier 2 exact match on `"ethereum-" + n`,
tier 3 exact match on `n + "-mainnet"`, tier 4 substring match. -/
def findChainIDByNameClaim (nameMapping : List (String × Nat)) (n : String) :
    Except ChainErr Nat :=
  match lookupA nameMapping n with
  | some chainID => .ok chainID
  | none =>
    match lookupA nameMapping ("ethereum-" ++ n) with
    | some chainID => .ok chainID
    | none =>
      match lookupA nameMapping (n ++ "-mainnet") with
      | some chainID => .ok chainID
      | none => findChainIdByPartialMatch nameMapping n

/-- The amended four-tier strategy, written independently of
`findChainIdByPartialMatch`'s control flow: tier 1 exact; tiers 2 and 3
substring matches on the decorated queries, used only when they match
exactly one alias key; tier 4 the bare substring match with its
zero/one/many outcome. -/
def findChainIDByNameAmended (nameMapping : List (String × Nat)) (n : String) :
    Except ChainErr Nat :=
  match lookupA nameMapping n with
  | some chainID => .ok chainID
  | none =>
    match matchingAliasKeys nameMapping ("ethereum-" ++ n) with
    | [k] => .ok ((lookupA nameMapping k).getD 0)
    | _ =>
      match matchingAliasKeys nameMapping (n ++ "-mainnet") with
      | [k] => .ok ((lookupA nameMapping k).getD 0)
      | _ => findChainIdByPartialMatch nameMapping n

/-! ### Supporting lemmas: decimal print/parse round trip -/

theorem toNat_ofNat_valid {m : Nat} (h : m.isValidChar) : (Char.ofNat m).toNat = m := by
  simp [Char.ofNat, h, Char.ofNatAux, Char.toNat, UInt32.toNat, BitVec.toNat_ofNatLt]

theorem digitVal?_decDigitChar {d : Nat} (h : d < 10) :
    digitVal? (decDigitChar d) = some d := by
  interval_cases d <;> decide

theorem decDigitChar_ne_underscore {d : Nat} (h : d < 10) : decDigitChar d ≠ '_' := by
  interval_cases d <;> decide

theorem parseLoop_natDecDigitsAux {fuel n : Nat} (hf : n < fuel) (h64 : n < 2 ^ 64) :
    parseUintLoop 10 false (natDecDigitsAux fuel n) = some n := by
  induction fuel generalizing n with
  | zero => omega
  | succ fuel ih =>
    rw [natDecDigitsAux]
    by_cases h10 : n < 10
    · simp only [h10, if_true, parseUintLoop, List.foldl_cons, List.foldl_nil, parseUintStep]
      rw [digitVal?_decDigitChar h10]
      simp [h10]
      omega
    · have hdiv : n / 10 < fuel := by
        have := Nat.div_lt_self (by omega : 0 < n) (by omega : 1 < 10)
        omega
      have hdiv64 : n / 10 < 2 ^ 64 := by
        have := Nat.div_le_self n 10
        omega
      simp only [h10, if_false, parseUintLoop, List.foldl_append]
      have hinner := ih hdiv hdiv64
      rw [parseUintLoop] at hinner
      rw [hinner]
      simp only [List.foldl_cons, List.foldl_nil, parseUintStep]
      rw [digitVal?_decDigitChar (Nat.mod_lt n (by omega))]
      have hmod : n % 10 < 10 := Nat.mod_lt n (by omega)
      have hrec : n / 10 * 10 + n % 10 = n := by omega
      simp [hmod, hrec]
      omega

theorem parseUintLoop_natDecDigits {n : Nat} (h64 : n < 2 ^ 64) :
    parseUintLoop 10 false (natDecDigits n) = some n :=
  parseLoop_natDecDigitsAux (by omega) h64

theorem natDecDigits_ne_nil (n : Nat) : natDecDigits n ≠ [] := by
  rw [natDecDigits, natDecDigitsAux]
  split <;> simp

theorem parseUintDec64_uint64Key {n : Nat} (h64 : n < 2 ^ 64) :
    parseUintDec64 (uint64Key n) = some n := by
  have hne := natDecDigits_ne_nil n
  rw [parseUintDec64]
  have hdata : (uint64Key n).data = natDecDigits n := rfl
  rw [hdata]
  simp only [List.isEmpty_iff, hne, if_false]
  exact parseUintLoop_natDecDigits h64

/-! ### Supporting lemmas: the Go map model -/

theorem lookupA_nil {α β : Type} [DecidableEq α] (k : α) :
    lookupA ([] : List (α × β)) k = none := rfl

theorem lookupA_cons {α β : Type} [DecidableEq α] (p : α × β) (l : List (α × β)) (k : α) :
    lookupA (p :: l) k = if p.1 = k then some p.2 else lookupA l k := by
  by_cases h : p.1 = k <;> simp [lookupA, List.find?_cons, h]

theorem lookupA_insertA_self {α β : Type} [DecidableEq α] (l : List (α × β)) (k : α) (v : β) :
    lookupA (insertA l k v) k = some v := by
  induction l with
  | nil => simp [insertA, lookupA_cons]
  | cons p rest ih =>
    by_cases hp : p.1 = k
    · simp [insertA, hp, lookupA_cons]
    · simp [insertA, hp, lookupA_cons, ih]

theorem lookupA_insertA_ne {α β : Type} [DecidableEq α] (l : List (α × β)) (k k' : α) (v : β)
    (h : k' ≠ k) : lookupA (insertA l k v) k' = lookupA l k' := by
  have hne : k ≠ k' := fun he => h he.symm
  induction l with
  | nil => simp [insertA, lookupA_cons, lookupA_nil, hne]
  | cons p rest ih =>
    by_cases hp : p.1 = k
    · have hb : (p.1 == k) = true := by simp [hp]
      simp only [insertA, hb, if_true]
      rw [lookupA_cons, lookupA_cons, hp]
      simp [hne]
    · have hb : (p.1 == k) = false := by simp [hp]
      simp only [insertA, hb, Bool.false_eq_true, if_false]
      rw [lookupA_cons, lookupA_cons]
      by_cases hpk : p.1 = k' <;> simp [hpk, ih]

theorem mem_insertA {α β : Type} [DecidableEq α] {l : List (α × β)} {k : α} {v : β}
    {p : α × β} (h : p ∈ insertA l k v) : p ∈ l ∨ p = (k, v) := by
  induction l with
  | nil =>
    rw [insertA] at h
    right
    exact List.mem_singleton.mp h
  | cons q rest ih =>
    rw [insertA] at h
    by_cases hq : q.1 = k
    · rw [if_pos (by simp [hq])] at h
      rcases List.mem_cons.mp h with h1 | h1
      · right; exact h1
      · left; exact List.mem_cons_of_mem q h1
    · rw [if_neg (by simp [hq])] at h
      rcases List.mem_cons.mp h with h1 | h1
      · left; exact h1 ▸ List.mem_cons_self q rest
      · rcases ih h1 with h2 | h2
        · left; exact List.mem_cons_of_mem q h2
        · right; exact h2

theorem lookupA_isSome_insertA {α β : Type} [DecidableEq α] (l : List (α × β)) (k k' : α)
    (v : β) (h : (lookupA l k').isSome) : (lookupA (insertA l k v) k').isSome := by
  by_cases he : k' = k
  · rw [he, lookupA_insertA_self]; rfl
  · rw [lookupA_insertA_ne l k k' v he]; exact h

theorem lookupA_isSome_of_mem_keys {α β : Type} [DecidableEq α] {l : List (α × β)} {k : α}
    (h : k ∈ l.map Prod.fst) : (lookupA l k).isSome := by
  induction l with
  | nil => simp at h
  | cons p rest ih =>
    rw [lookupA_cons]
    by_cases hp : p.1 = k
    · simp [hp]
    · rw [if_neg hp]
      apply ih
      rcases List.mem_map.mp h with ⟨q, hq, hqk⟩
      rcases List.mem_cons.mp hq with rfl | hq2
      · exact absurd hqk hp
      · exact List.mem_map.mpr ⟨q, hq2, hqk⟩

/-! ### Supporting lemmas: the index build and the streaming locator -/

theorem byID_foldl (feed : List ChainData) (init : CacheData) :
    (feed.foldl addChainToCache init).byID =
      feed.foldl (fun m c => insertA m c.chainID c) init.byID := by
  induction feed generalizing init with
  | nil => rfl
  | cons c fs ih =>
    rw [List.foldl_cons, List.foldl_cons, ih]
    rfl

theorem lookupA_foldl_insertChain (feed : List ChainData) (m0 : List (Nat × ChainData))
    (k : Nat) :
    lookupA (feed.foldl (fun m c => insertA m c.chainID c) m0) k =
      match feed.reverse.find? (fun c => c.chainID == k) with
      | some c => some c
      | none => lookupA m0 k := by
  induction feed generalizing m0 with
  | nil => simp
  | cons a fs ih =>
    rw [List.foldl_cons, ih, List.reverse_cons, List.find?_append]
    cases hf : fs.reverse.find? (fun c => c.chainID == k) with
    | some c => simp [Option.or]
    | none =>
      simp only [Option.none_or]
      by_cases ha : a.chainID = k
      · rw [← ha, lookupA_insertA_self]
        simp [List.find?, ha]
      · rw [lookupA_insertA_ne _ _ _ _ (fun he => ha he.symm)]
        have hb : (a.chainID == k) = false := by simp [ha]
        simp [List.find?, hb]

theorem find?_chainID_eq {feed : List ChainData} {c : ChainData}
    (hnd : (feed.map ChainData.chainID).Nodup) (hc : c ∈ feed) :
    feed.find? (fun x => x.chainID == c.chainID) = some c := by
  induction feed with
  | nil => cases hc
  | cons a fs ih =>
    rw [List.map_cons, List.nodup_cons] at hnd
    rcases List.mem_cons.mp hc with rfl | hmem
    · simp [List.find?]
    · by_cases ha : a.chainID = c.chainID
      · exact absurd (ha ▸ List.mem_map.mpr ⟨c, hmem, rfl⟩) hnd.1
      · have hb : (a.chainID == c.chainID) = false := by simp [ha]
        simp only [List.find?, hb]
        exact ih hnd.2 hmem

theorem mem_byID_foldl {feed : List ChainData} {m0 : List (Nat × ChainData)}
    {p : Nat × ChainData}
    (h : p ∈ feed.foldl (fun m c => insertA m c.chainID c) m0) :
    p ∈ m0 ∨ ∃ c ∈ feed, p = (c.chainID, c) := by
  induction feed generalizing m0 with
  | nil => left; exact h
  | cons a fs ih =>
    rw [List.foldl_cons] at h
    rcases ih h with h1 | h1
    · rcases mem_insertA h1 with h2 | h2
      · left; exact h2
      · right; exact ⟨a, List.mem_cons_self a fs, h2⟩
    · rcases h1 with ⟨c, hc, hp⟩
      right; exact ⟨c, List.mem_cons_of_mem a hc, hp⟩

theorem findChainInByID_serializeByID {m : List (Nat × ChainData)}
    (hk : ∀ p ∈ m, p.1 < 2 ^ 64) (k : Nat) :
    findChainInByID (serializeByID m) k =
      match lookupA m k with
      | some c => Except.ok c
      | none => Except.error ChainErr.errChainNotFound := by
  induction m with
  | nil => rfl
  | cons p rest ih =>
    have h1 : p.1 < 2 ^ 64 := hk p (List.mem_cons_self _ _)
    have hrest : ∀ q ∈ rest, q.1 < 2 ^ 64 := fun q hq => hk q (List.mem_cons_of_mem p hq)
    simp only [serializeByID, List.map_cons] at *
    rw [findChainInByID, parseUintDec64_uint64Key h1, lookupA_cons]
    by_cases hp : p.1 = k
    · simp [hp]
    · simp [hp]
      exact ih hrest

theorem loadChainByID_serializeCache (cd : CacheData) (k : Nat) :
    loadChainByID (serializeCache cd) k = findChainInByID (serializeByID cd.byID) k := by
  simp [loadChainByID, serializeCache]

/-! ### Supporting lemmas: the name/ID referential invariant -/

theorem mem_ite_insertA {α β : Type} [DecidableEq α] (cond : Prop) [Decidable cond]
    {l : List (α × β)} {k : α} {v : β} {p : α × β}
    (h : p ∈ (if cond then insertA l k v else l)) : p ∈ l ∨ p.2 = v := by
  split at h
  · rcases mem_insertA h with h1 | h1
    · left; exact h1
    · right; rw [h1]
  · left; exact h

/-- The invariant of claim C8 as a predicate on a cache. -/
def cacheInv (cd : CacheData) : Prop :=
  ∀ p ∈ cd.byName, (lookupA cd.byID p.2).isSome

theorem cacheInv_addChain {cd : CacheData} (h : cacheInv cd) (c : ChainData) :
    cacheInv (addChainToCache cd c) := by
  intro p hp
  have hbn : (addChainToCache cd c).byName =
      (if c.chainSlug ≠ "" then
        insertA
          (if c.shortName ≠ "" then
            insertA
              (if c.name ≠ "" then insertA cd.byName (normalizeChainName c.name) c.chainID
               else cd.byName)
              (normalizeChainName c.shortName) c.chainID
           else
            if c.name ≠ "" then insertA cd.byName (normalizeChainName c.name) c.chainID
            else cd.byName)
          (normalizeChainName c.chainSlug) c.chainID
       else
        if c.shortName ≠ "" then
          insertA
            (if c.name ≠ "" then insertA cd.byName (normalizeChainName c.name) c.chainID
             else cd.byName)
            (normalizeChainName c.shortName) c.chainID
        else
          if c.name ≠ "" then insertA cd.byName (normalizeChainName c.name) c.chainID
          else cd.byName) := rfl
  have hbid : (addChainToCache cd c).byID = insertA cd.byID c.chainID c := rfl
  rw [hbn] at hp
  rw [hbid]
  have hcases : p ∈ cd.byName ∨ p.2 = c.chainID := by
    rcases mem_ite_insertA _ hp with h1 | h1
    · rcases mem_ite_insertA _ h1 with h2 | h2
      · rcases mem_ite_insertA _ h2 with h3 | h3
        · left; exact h3
        · right; exact h3
      · right; exact h2
    · right; exact h1
  rcases hcases with hmem | hid
  · exact lookupA_isSome_insertA _ _ _ _ (h p hmem)
  · rw [hid, lookupA_insertA_self]
    rfl

theorem cacheInv_buildCacheData (feed : List ChainData) : cacheInv (buildCacheData feed) := by
  suffices h : ∀ init : CacheData, cacheInv init → cacheInv (feed.foldl addChainToCache init) by
    exact h { byID := [], byName := [] } (fun p hp => by cases hp)
  induction feed with
  | nil => intro init h; exact h
  | cons c fs ih => intro init h; exact ih _ (cacheInv_addChain h c)

/-! ### Supporting lemmas: substring matching and its error message -/

theorem findChainIdByPartialMatch_eq (m : List (String × Nat)) (q : String) :
    findChainIdByPartialMatch m q =
      match matchingAliasKeys m q with
      | [k] => Except.ok ((lookupA m k).getD 0)
      | [] => Except.error (ChainErr.nameNotFound q)
      | ks => Except.error (ChainErr.ambiguousName q ks) := by
  rw [findChainIdByPartialMatch]
  cases hmk : matchingAliasKeys m q with
  | nil => simp [hmk]
  | cons k rest =>
    cases rest with
    | nil => simp [hmk]
    | cons k2 rest2 => simp [hmk]

theorem mem_matchingAliasKeys {m : List (String × Nat)} {q k : String} :
    k ∈ matchingAliasKeys m q ↔ k ∈ m.map Prod.fst ∧ strContains k q = true := by
  rw [matchingAliasKeys]
  exact List.mem_filter

theorem foldl_msg_data (keys : List String) (base : String) :
    ∃ t, (keys.foldl (fun acc key => acc ++ "- " ++ key ++ "\n") base).data =
      base.data ++ t := by
  induction keys generalizing base with
  | nil => exact ⟨[], by simp⟩
  | cons x xs ih =>
    rcases ih (base ++ "- " ++ x ++ "\n") with ⟨t, ht⟩
    refine ⟨("- ".data ++ x.data ++ "\n".data) ++ t, ?_⟩
    rw [List.foldl_cons, ht]
    simp [String.data_append, List.append_assoc]

theorem mem_infix_foldl_msg {keys : List String} {k : String} (hk : k ∈ keys) (base : String) :
    k.data <:+: (keys.foldl (fun acc key => acc ++ "- " ++ key ++ "\n") base).data := by
  induction keys generalizing base with
  | nil => cases hk
  | cons x xs ih =>
    rw [List.foldl_cons]
    rcases List.mem_cons.mp hk with rfl | hmem
    · rcases foldl_msg_data xs (base ++ "- " ++ k ++ "\n") with ⟨t, ht⟩
      rw [ht]
      refine ⟨base.data ++ "- ".data, "\n".data ++ t, ?_⟩
      simp [String.data_append, List.append_assoc]
    · exact ih hmem _

theorem mem_infix_ambiguousErrMsg {keys : List String} {k : String} (hk : k ∈ keys)
    (name : String) : strContains (ambiguousErrMsg name keys) k = true := by
  rw [strContains, decide_eq_true_eq, ambiguousErrMsg]
  have h1 := mem_infix_foldl_msg hk
    ("found multiple chains matching \x27" ++ name ++ "\x27:\n")
  refine List.IsInfix.trans h1 ?_
  rw [String.data_append]
  exact ⟨[], (" \nPlease specify a more precise name").data, by simp⟩

/-! ### Supporting lemmas: normalization is idempotent -/

theorem toNat_toLower (c : Char) :
    c.toLower.toNat = if c.toNat ≥ 65 ∧ c.toNat ≤ 90 then c.toNat + 32 else c.toNat := by
  rw [Char.toLower]
  split
  · next h =>
    exact toNat_ofNat_valid (Or.inl (by omega))
  · rfl

theorem toLower_idem (c : Char) : c.toLower.toLower = c.toLower := by
  by_cases h1 : c.toNat ≥ 65 ∧ c.toNat ≤ 90
  · have h2 : c.toLower.toNat = c.toNat + 32 := by rw [toNat_toLower, if_pos h1]
    rw [Char.toLower]
    rw [if_neg (by omega)]
  · have h2 : c.toLower = c := by rw [Char.toLower, if_neg h1]
    rw [h2, h2]

theorem toLower_toNat_not_ws {c : Char} (h : c.isWhitespace = false) :
    c.toLower.isWhitespace = false := by
  have hn := toNat_toLower c
  have hws : ∀ d : Char, d.isWhitespace = (decide (d = ' ') || decide (d = '\t')
      || decide (d = '\r') || decide (d = '\n')) := fun d => rfl
  have htonat : ∀ d e : Char, d = e → d.toNat = e.toNat := fun d e he => he ▸ rfl
  rw [hws]
  by_cases h1 : c.toNat ≥ 65 ∧ c.toNat ≤ 90
  · rw [if_pos h1] at hn
    simp only [Bool.or_eq_false_iff, decide_eq_false_iff_not]
    have hsp : (' ' : Char).toNat = 32 := by decide
    have hgt : (('\t' : Char)).toNat = 9 := by decide
    have hcr : (('\r' : Char)).toNat = 13 := by decide
    have hnl : (('\n' : Char)).toNat = 10 := by decide
    refine ⟨⟨⟨?_, ?_⟩, ?_⟩, ?_⟩ <;>
      · intro he
        have := htonat _ _ he
        rw [hn] at this
        omega
  · have h2 : c.toLower = c := by rw [Char.toLower, if_neg h1]
    rw [h2, ← hws]
    exact h

theorem normChar_idem (c : Char) : normChar (normChar c) = normChar c := by
  by_cases h : c.toLower = ' '
  · have h1 : normChar c = '-' := by rw [normChar, if_pos h]
    rw [h1]
    decide
  · have h1 : normChar c = c.toLower := by rw [normChar, if_neg h]
    rw [h1, normChar, toLower_idem c, if_neg h]

theorem normChar_not_ws {c : Char} (h : c.isWhitespace = false) :
    (normChar c).isWhitespace = false := by
  rw [normChar]
  split
  · decide
  · exact toLower_toNat_not_ws h

theorem head?_dropWhile_not (p : Char → Bool) (l : List Char) {c : Char}
    (h : (l.dropWhile p).head? = some c) : p c = false := by
  induction l with
  | nil => simp [List.dropWhile] at h
  | cons a rest ih =>
    rw [List.dropWhile_cons] at h
    by_cases hp : p a
    · rw [if_pos hp] at h
      exact ih h
    · rw [if_neg hp] at h
      simp only [List.head?_cons, Option.some.injEq] at h
      rw [← h]
      exact Bool.not_eq_true _ ▸ (by simpa using hp)

theorem head?_mono {l1 l2 : List Char} (h : l1 <+: l2) {c : Char}
    (hc : l1.head? = some c) : l2.head? = some c := by
  obtain ⟨t, rfl⟩ := h
  cases l1 <;> simp_all

theorem head?_dropWS {l : List Char} {c : Char} (h : (dropWS l).head? = some c) :
    c.isWhitespace = false :=
  head?_dropWhile_not _ _ h

theorem head?_backTrim_not_ws {l : List Char}
    (h : ∀ c, l.head? = some c → c.isWhitespace = false) {c : Char}
    (hc : ((l.reverse.dropWhile Char.isWhitespace).reverse).head? = some c) :
    c.isWhitespace = false := by
  have hsuf : l.reverse.dropWhile Char.isWhitespace <:+ l.reverse :=
    List.dropWhile_suffix _
  have hpre : (l.reverse.dropWhile Char.isWhitespace).reverse <+: l := by
    have h2 := List.reverse_prefix.mpr hsuf
    rwa [List.reverse_reverse] at h2
  exact h c (head?_mono hpre hc)

theorem trimChars_head?_not_ws {l : List Char} {c : Char}
    (h : (trimChars l).head? = some c) : c.isWhitespace = false := by
  rw [trimChars] at h
  exact head?_backTrim_not_ws (fun d hd => head?_dropWS hd) h

theorem trimChars_revHead?_not_ws {l : List Char} {c : Char}
    (h : (trimChars l).reverse.head? = some c) : c.isWhitespace = false := by
  rw [trimChars, List.reverse_reverse] at h
  exact head?_dropWhile_not _ _ h

theorem dropWhile_eq_self_of_head {p : Char → Bool} {l : List Char}
    (h : ∀ c, l.head? = some c → p c = false) : l.dropWhile p = l := by
  cases l with
  | nil => rfl
  | cons a rest =>
    rw [List.dropWhile_cons, if_neg]
    simp [h a rfl]

theorem trim_eq_self {l : List Char}
    (hh : ∀ c, l.head? = some c → c.isWhitespace = false)
    (hr : ∀ c, l.reverse.head? = some c → c.isWhitespace = false) :
    trimChars l = l := by
  rw [trimChars, dropWS, dropWhile_eq_self_of_head hh,
    dropWhile_eq_self_of_head hr, List.reverse_reverse]

theorem map_normChar_idem (l : List Char) :
    (l.map normChar).map normChar = l.map normChar := by
  induction l with
  | nil => rfl
  | cons a rest ih => simp [normChar_idem, ih]

theorem normalizeChainName_idem_data (s : String) :
    normalizeChainName (normalizeChainName s) = normalizeChainName s := by
  rw [normalizeChainName, normalizeChainName]
  have hdata : (String.mk ((trimChars s.data).map normChar)).data
      = (trimChars s.data).map normChar := rfl
  rw [hdata]
  have hh : ∀ c, ((trimChars s.data).map normChar).head? = some c →
      c.isWhitespace = false := by
    intro c hc
    rw [List.head?_map] at hc
    cases hd : (trimChars s.data).head? with
    | none => rw [hd] at hc; cases hc
    | some d =>
      rw [hd] at hc
      simp at hc
      rw [← hc]
      exact normChar_not_ws (trimChars_head?_not_ws hd)
  have hr : ∀ c, ((trimChars s.data).map normChar).reverse.head? = some c →
      c.isWhitespace = false := by
    intro c hc
    rw [← List.map_reverse, List.head?_map] at hc
    cases hd : (trimChars s.data).reverse.head? with
    | none => rw [hd] at hc; cases hc
    | some d =>
      rw [hd] at hc
      simp at hc
      rw [← hc]
      exact normChar_not_ws (trimChars_revHead?_not_ws hd)
  rw [trim_eq_self hh hr, map_normChar_idem]

/-! ### Supporting lemmas: locator skipping and probe characterization -/

theorem findChainInByID_skip (pre post : List (String × ChainData)) (bad : String)
    (junk : ChainData) (hbad : parseUintDec64 bad = none) (t : Nat) :
    findChainInByID (pre ++ (bad, junk) :: post) t = findChainInByID (pre ++ post) t := by
  induction pre with
  | nil =>
    simp only [List.nil_append]
    rw [findChainInByID, hbad]
  | cons p rest ih =>
    rcases p with ⟨k, v⟩
    simp only [List.cons_append]
    rw [findChainInByID, findChainInByID]
    cases hp : parseUintDec64 k with
    | none => exact ih
    | some i =>
      by_cases hi : i = t
      · simp [hi]
      · simp [hi]
        exact ih

theorem findChainInByID_notFound {entries : List (String × ChainData)} {t : Nat}
    (h : ∀ p ∈ entries, ∀ i, parseUintDec64 p.1 = some i → i ≠ t) :
    findChainInByID entries t = .error .errChainNotFound := by
  induction entries with
  | nil => rfl
  | cons p rest ih =>
    rcases p with ⟨k, v⟩
    rw [findChainInByID]
    cases hp : parseUintDec64 k with
    | none => exact ih (fun q hq => h q (List.mem_cons_of_mem _ hq))
    | some i =>
      have hne := h (k, v) (List.mem_cons_self _ _) i hp
      simp [hne]
      exact ih (fun q hq => h q (List.mem_cons_of_mem _ hq))

theorem loadChainByID_noByID {doc : List (String × CacheField)} {t : Nat}
    (h : ∀ p ∈ doc, p.1 ≠ "byId") :
    loadChainByID doc t = .error .errChainNotFound := by
  induction doc with
  | nil => rfl
  | cons p rest ih =>
    rcases p with ⟨k, v⟩
    have hk : ¬ k = "byId" := h (k, v) (List.mem_cons_self _ _)
    cases v with
    | entriesF es =>
      have hstep : loadChainByID ((k, CacheField.entriesF es) :: rest) t =
          if k = "byId" then findChainInByID es t else loadChainByID rest t := rfl
      rw [hstep, if_neg hk]
      exact ih (fun q hq => h q (List.mem_cons_of_mem _ hq))
    | opaqueF =>
      have hstep : loadChainByID ((k, CacheField.opaqueF) :: rest) t =
          if k = "byId" then Except.error ChainErr.cacheDecodeError
          else loadChainByID rest t := rfl
      rw [hstep, if_neg hk]
      exact ih (fun q hq => h q (List.mem_cons_of_mem _ hq))

theorem checkChainIDResponse_iff (resp : RPCResponse) (e : Nat) :
    checkChainIDResponse resp e = true ↔
      resp.error = none ∧ ∃ s, resp.result = JVal.jstr s ∧ parseUint0 s = some e := by
  rw [checkChainIDResponse]
  cases he : resp.error with
  | some err => simp [he]
  | none =>
    cases hr : resp.result with
    | jstr s =>
      cases hp : parseUint0 s with
      | none => simp [hp]
      | some n => simp [hp]
    | jnull => simp
    | jbool b => simp
    | jnum => simp
    | jarr => simp
    | jobj => simp

/-! ### Claim theorems -/

/-- C1 (counterexample): the claim's "hex-prefixed or decimal" parse does
not match the code.  With `result` string "017" and expected chain ID 15
the probe answers `true` (Go `ParseUint` base 0 reads a bare leading `0`
as octal: 0o17 = 15), while under the spec's parse ("017" decimal = 17)
the endpoint would not be working. -/
theorem claim1_counterexample :
    isHTTPRPCWorking
      (HTTPOutcome.response 200
        (some { jsonrpc := "2.0", result := JVal.jstr "017", error := none, id := 1 })) 15
      = true ∧
    specWorkingHTTP
      (HTTPOutcome.response 200
        (some { jsonrpc := "2.0", result := JVal.jstr "017", error := none, id := 1 })) 15
      = false := by
  constructor <;> decide

/-- C1 (amended): a probe (`isHTTPRPCWorking` / `isWebSocketRPCWorking`)
returns `true` iff the transport produced a decoded response (with HTTP
status 200), the `error` field is nil, the `result` field is a string,
and that string parses under Go `strconv.ParseUint(s, 0, 64)` semantics
(decimal, or `0b`/`0o`/`0x`-prefixed, or bare-leading-zero octal, with
underscore separators) to a value equal to `expectedChainID`; every
other outcome yields `false`, never an error. -/
theorem claim1_probe_decision :
    ∀ (o : HTTPOutcome) (w : WSOutcome) (e : Nat),
      (isHTTPRPCWorking o e = true ↔
        ∃ resp s, o = HTTPOutcome.response 200 (some resp) ∧ resp.error = none ∧
          resp.result = JVal.jstr s ∧ parseUint0 s = some e) ∧
      (isWebSocketRPCWorking w e = true ↔
        ∃ resp s, w = WSOutcome.response resp ∧ resp.error = none ∧
          resp.result = JVal.jstr s ∧ parseUint0 s = some e) := by
  intro o w e
  constructor
  · cases o with
    | requestError => simp [isHTTPRPCWorking]
    | transportError => simp [isHTTPRPCWorking]
    | response code body =>
      cases body with
      | none => simp [isHTTPRPCWorking]
      | some resp =>
        by_cases hc : code = 200
        · subst hc
          simp [isHTTPRPCWorking, checkChainIDResponse_iff]
        · simp [isHTTPRPCWorking, hc]
  · cases w with
    | urlParseError => simp [isWebSocketRPCWorking]
    | dialError => simp [isWebSocketRPCWorking]
    | writeError => simp [isWebSocketRPCWorking]
    | readError => simp [isWebSocketRPCWorking]
    | response resp => simp [isWebSocketRPCWorking, checkChainIDResponse_iff]

/-- C2 (confirmed): for a feed with pairwise-distinct (64-bit) chain
IDs, building the cache, serializing it, and streaming-reading any
record back by its chain ID returns exactly the original record, whose
`chainID` equals the query. -/
theorem claim2_roundtrip (feed : List ChainData)
    (hnd : (feed.map ChainData.chainID).Nodup)
    (hbound : ∀ c ∈ feed, c.chainID < 2 ^ 64) :
    ∀ c ∈ feed,
      loadChainByID (serializeCache (buildCacheData feed)) c.chainID = Except.ok c ∧
      ∀ r, loadChainByID (serializeCache (buildCacheData feed)) c.chainID = Except.ok r →
        r.chainID = c.chainID := by
  intro c hc
  have hkeys : ∀ p ∈ (buildCacheData feed).byID, p.1 < 2 ^ 64 := by
    intro p hp
    rw [buildCacheData, byID_foldl] at hp
    rcases mem_byID_foldl hp with h1 | ⟨d, hd, hp2⟩
    · cases h1
    · rw [hp2]
      exact hbound d hd
  have hnd2 : (feed.reverse.map ChainData.chainID).Nodup := by
    rw [List.map_reverse]
    exact List.nodup_reverse.mpr hnd
  have hlook : lookupA (buildCacheData feed).byID c.chainID = some c := by
    rw [buildCacheData, byID_foldl, lookupA_foldl_insertChain]
    rw [find?_chainID_eq hnd2 (List.mem_reverse.mpr hc)]
  have hmain : loadChainByID (serializeCache (buildCacheData feed)) c.chainID
      = Except.ok c := by
    rw [loadChainByID_serializeCache, findChainInByID_serializeByID hkeys, hlook]
  refine ⟨hmain, ?_⟩
  intro r hr
  rw [hmain] at hr
  injection hr with h2
  rw [← h2]

/-- C2 witness: a concrete two-record feed round-trips. -/
theorem claim2_roundtrip_witness :
    loadChainByID
      (serializeCache (buildCacheData
        [{ name := "Gnosis", chain := "GNO", rpcs := [],
           nativeCurrency := { name := "xDAI", symbol := "XDAI", decimals := 18 },
           shortName := "gno", chainID := 100, explorers := [], chainSlug := "gnosis" },
         { name := "Polygon", chain := "MATIC", rpcs := [],
           nativeCurrency := { name := "MATIC", symbol := "MATIC", decimals := 18 },
           shortName := "matic", chainID := 137, explorers := [], chainSlug := "polygon" }]))
      137 =
      Except.ok
        { name := "Polygon", chain := "MATIC", rpcs := [],
          nativeCurrency := { name := "MATIC", symbol := "MATIC", decimals := 18 },
          shortName := "matic", chainID := 137, explorers := [], chainSlug := "polygon" } := by
  have h := claim2_roundtrip
    [{ name := "Gnosis", chain := "GNO", rpcs := [],
       nativeCurrency := { name := "xDAI", symbol := "XDAI", decimals := 18 },
       shortName := "gno", chainID := 100, explorers := [], chainSlug := "gnosis" },
     { name := "Polygon", chain := "MATIC", rpcs := [],
       nativeCurrency := { name := "MATIC", symbol := "MATIC", decimals := 18 },
       shortName := "matic", chainID := 137, explorers := [], chainSlug := "polygon" }]
    (by decide) (by decide)
    { name := "Polygon", chain := "MATIC", rpcs := [],
      nativeCurrency := { name := "MATIC", symbol := "MATIC", decimals := 18 },
      shortName := "matic", chainID := 137, explorers := [], chainSlug := "polygon" }
    (by decide)
  exact h.1

/-- C3 (counterexample): tiers 2 and 3 are substring matches in the code,
not exact matches.  With aliases "aethereum-fooa" and "foob" and query
"foo", the code resolves tier 2 by the substring "ethereum-foo" hitting
"aethereum-fooa" (result chain 1), while the claim's exact-match tiers
fall through to tier 4, which is ambiguous. -/
theorem claim3_counterexample :
    findChainIDByName [("aethereum-fooa", 1), ("foob", 2)] "foo" = Except.ok 1 ∧
    findChainIDByNameClaim [("aethereum-fooa", 1), ("foob", 2)] "foo" =
      Except.error (ChainErr.ambiguousName "foo" ["aethereum-fooa", "foob"]) := by
  constructor <;> decide

/-- C3 (amended): `findChainIDByName` tries, in order: tier 1 an exact
key match on the normalized input; tier 2 a substring match of
`"ethereum-" + normalized` over all alias keys; tier 3 a substring
match of `normalized + "-mainnet"`; tier 4 the substring match of the
bare normalized input — tiers 2 and 3 are used only when they match
exactly one alias key, any other outcome falling through to the next
tier. -/
theorem claim3_tiers (nameMapping : List (String × Nat)) (n : String) :
    findChainIDByName nameMapping n = findChainIDByNameAmended nameMapping n := by
  rw [findChainIDByName, findChainIDByNameAmended]
  cases lookupA nameMapping n with
  | some id => rfl
  | none =>
    rw [findChainIdByPartialMatch_eq nameMapping ("ethereum-" ++ n)]
    cases matchingAliasKeys nameMapping ("ethereum-" ++ n) with
    | cons k rest =>
      cases rest with
      | nil => rfl
      | cons k2 rest2 =>
        rw [findChainIdByPartialMatch_eq nameMapping (n ++ "-mainnet")]
        cases matchingAliasKeys nameMapping (n ++ "-mainnet") with
        | cons k3 rest3 =>
          cases rest3 with
          | nil => rfl
          | cons k4 rest4 => rfl
        | nil => rfl
    | nil =>
      rw [findChainIdByPartialMatch_eq nameMapping (n ++ "-mainnet")]
      cases matchingAliasKeys nameMapping (n ++ "-mainnet") with
      | cons k3 rest3 =>
        cases rest3 with
        | nil => rfl
        | cons k4 rest4 => rfl
      | nil => rfl

/-- C4 (counterexample): the claim says every URL with a WebSocket
scheme (ws or wss) takes the WebSocket path, but the code's
`isWebSocketURL` checks only the `wss://` prefix: a `ws://` URL is
probed over HTTP. -/
theorem claim4_counterexample :
    probeTransport "ws://example.com" = Transport.http ∧
    specIsWebSocketURL "ws://example.com" = true := by
  constructor <;> decide

/-- C4 (amended): `isRPCWorkingWithTimeout` dispatches to the WebSocket
path exactly for URLs beginning with `wss://`; every other URL —
including `ws://` URLs — is probed over HTTP POST. -/
theorem claim4_transport (rpcURL : String) :
    probeTransport rpcURL = Transport.websocket ↔ strHasPrefix rpcURL "wss://" = true := by
  rw [probeTransport, isWebSocketURL]
  by_cases h : strHasPrefix rpcURL "wss://" = true
  · simp [h]
  · simp [h]

/-- C5 (confirmed): the substring tier is a strict trichotomy — zero
matching keys give the not-found error, exactly one resolves to that
key's chain ID, and two or more give the ambiguous-name error whose
message contains every matching alias key. -/
theorem claim5_partial_match (m : List (String × Nat)) (q : String) :
    (matchingAliasKeys m q = [] →
      findChainIdByPartialMatch m q = Except.error (ChainErr.nameNotFound q)) ∧
    (∀ k, matchingAliasKeys m q = [k] →
      ∃ id, lookupA m k = some id ∧ findChainIdByPartialMatch m q = Except.ok id) ∧
    (2 ≤ (matchingAliasKeys m q).length →
      findChainIdByPartialMatch m q =
        Except.error (ChainErr.ambiguousName q (matchingAliasKeys m q)) ∧
      ∀ k ∈ matchingAliasKeys m q,
        strContains (ambiguousErrMsg q (matchingAliasKeys m q)) k = true) := by
  refine ⟨?_, ?_, ?_⟩
  · intro h0
    rw [findChainIdByPartialMatch_eq, h0]
  · intro k h1
    have hkmem : k ∈ matchingAliasKeys m q := by
      rw [h1]
      exact List.mem_singleton_self k
    have hk : k ∈ m.map Prod.fst := (mem_matchingAliasKeys.mp hkmem).1
    rcases Option.isSome_iff_exists.mp (lookupA_isSome_of_mem_keys hk) with ⟨id, hid⟩
    refine ⟨id, hid, ?_⟩
    rw [findChainIdByPartialMatch_eq, h1]
    simp [hid]
  · intro h2
    constructor
    · rw [findChainIdByPartialMatch_eq]
      cases hmk : matchingAliasKeys m q with
      | nil => rw [hmk] at h2; simp at h2
      | cons a rest =>
        cases rest with
        | nil => rw [hmk] at h2; simp at h2
        | cons b rest2 => rfl
    · intro k hk
      exact mem_infix_ambiguousErrMsg hk q

/-- C5 witness: a two-way ambiguity is reported with both aliases. -/
theorem claim5_partial_match_witness :
    findChainIdByPartialMatch [("xdai", 100), ("arbitrum-on-xdai", 200)] "xdai" =
      Except.error (ChainErr.ambiguousName "xdai" ["xdai", "arbitrum-on-xdai"]) ∧
    strContains
      (ambiguousErrMsg "xdai" ["xdai", "arbitrum-on-xdai"]) "arbitrum-on-xdai" = true := by
  have h := (claim5_partial_match [("xdai", 100), ("arbitrum-on-xdai", 200)] "xdai").2.2
    (by decide)
  have hmk : matchingAliasKeys [("xdai", 100), ("arbitrum-on-xdai", 200)] "xdai" =
      ["xdai", "arbitrum-on-xdai"] := by decide
  rw [hmk] at h
  exact ⟨h.1, h.2 "arbitrum-on-xdai" (by decide)⟩

/-- C6 (confirmed): `ensureCacheExists` uses the persisted cache iff it
exists, `forceRebuild` is off, and its age is strictly below the 30-day
TTL; otherwise it rebuilds, and a failed rebuild is an error iff no
cache file exists on disk (otherwise it falls back to the stale file
and succeeds). -/
theorem claim6_cache_ttl (env : CacheEnv) :
    ((env.cacheFileExists = true ∧ env.forceRebuild = false ∧ env.cacheAge < CACHE_TTL) ↔
      (ensureCacheExists env).rebuilt = false) ∧
    ((ensureCacheExists env).rebuilt = false → (ensureCacheExists env).failed = false) ∧
    ((ensureCacheExists env).rebuilt = true →
      ((ensureCacheExists env).failed = true ↔
        env.buildSucceeds = false ∧ env.cacheFileExists = false)) := by
  rcases env with ⟨fr, fe, age, bs⟩
  rw [ensureCacheExists]
  by_cases hage : age < CACHE_TTL <;> cases fr <;> cases fe <;> cases bs <;>
    simp [hage]

/-- C6 witness: a fresh, existing cache with the flag off is reused
without rebuilding. -/
theorem claim6_cache_ttl_witness :
    (ensureCacheExists
      { forceRebuild := false, cacheFileExists := true, cacheAge := 0,
        buildSucceeds := false }).rebuilt = false := by
  exact (claim6_cache_ttl
    { forceRebuild := false, cacheFileExists := true, cacheAge := 0,
      buildSucceeds := false }).1.mp (by decide)

/-- C7 (confirmed): over the collected working set, `FindAllWorkingRPCs`
returns exactly that set and errs with `ErrNoRPCsFound` iff it is
empty; `FindRandomWorkingRPC` returns some element of the set and errs
with the same error iff it is empty. -/
theorem claim7_working_set (workingRPCs : List String) (randSeed : Nat) :
    (FindAllWorkingRPCs workingRPCs = Except.error RpcFindError.errNoRPCsFound ↔
      workingRPCs = []) ∧
    (workingRPCs ≠ [] → FindAllWorkingRPCs workingRPCs = Except.ok workingRPCs) ∧
    (FindRandomWorkingRPC workingRPCs randSeed =
        Except.error RpcFindError.errNoRPCsFound ↔ workingRPCs = []) ∧
    (workingRPCs ≠ [] →
      ∃ u ∈ workingRPCs, FindRandomWorkingRPC workingRPCs randSeed = Except.ok u) := by
  refine ⟨?_, ?_, ?_, ?_⟩
  · rw [FindAllWorkingRPCs]
    by_cases h : workingRPCs.length = 0
    · rw [if_pos h]
      simp [List.length_eq_zero.mp h]
    · rw [if_neg h]
      constructor
      · intro he
        exact absurd he (by simp)
      · intro he
        exact absurd (show workingRPCs.length = 0 by rw [he]; rfl) h
  · intro h
    rw [FindAllWorkingRPCs, if_neg (by simpa using List.length_pos.mpr h |>.ne')]
  · rw [FindRandomWorkingRPC]
    by_cases h : workingRPCs.length = 0
    · rw [dif_pos h]
      simp [List.length_eq_zero.mp h]
    · rw [dif_neg h]
      constructor
      · intro he
        exact absurd he (by simp)
      · intro he
        exact absurd (show workingRPCs.length = 0 by rw [he]; rfl) h
  · intro h
    have hlen : ¬ workingRPCs.length = 0 := by simpa using List.length_pos.mpr h |>.ne'
    refine ⟨workingRPCs.get ⟨randSeed % workingRPCs.length,
      Nat.mod_lt _ (Nat.pos_of_ne_zero hlen)⟩, List.get_mem _ _ _, ?_⟩
    rw [FindRandomWorkingRPC, dif_neg hlen]

/-- C7 witness: a singleton working set is returned whole and its only
element is the random pick. -/
theorem claim7_working_set_witness :
    FindAllWorkingRPCs ["https://rpc.gnosis.io"] =
      Except.ok ["https://rpc.gnosis.io"] := by
  exact (claim7_working_set ["https://rpc.gnosis.io"] 0).2.1 (by decide)

/-- C8 (confirmed): in the cache built from any feed, every chain ID
stored as a value of the `ByName` index is a key of the `ByID` index. -/
theorem claim8_name_id_invariant (feed : List ChainData) :
    ∀ p ∈ (buildCacheData feed).byName,
      ∃ c, lookupA (buildCacheData feed).byID p.2 = some c := by
  intro p hp
  exact Option.isSome_iff_exists.mp (cacheInv_buildCacheData feed p hp)

/-- C8 witness: the alias of a one-record feed maps to a present ID. -/
theorem claim8_name_id_invariant_witness :
    ∃ c, lookupA
      (buildCacheData
        [{ name := "Gnosis", chain := "GNO", rpcs := [],
           nativeCurrency := { name := "xDAI", symbol := "XDAI", decimals := 18 },
           shortName := "", chainID := 100, explorers := [], chainSlug := "" }]).byID
      100 = some c := by
  exact claim8_name_id_invariant
    [{ name := "Gnosis", chain := "GNO", rpcs := [],
       nativeCurrency := { name := "xDAI", symbol := "XDAI", decimals := 18 },
       shortName := "", chainID := 100, explorers := [], chainSlug := "" }]
    ("gnosis", 100) (by decide)

/-- C9 (confirmed): the streaming locator skips, without error, any
entry whose key does not parse as an unsigned decimal integer (still
finding a later target); it returns `ErrChainNotFound` when no key
parses to the target; and `loadChainByID` returns `ErrChainNotFound`
when the document has no `byId` section. -/
theorem claim9_locator_skips :
    (∀ (pre post : List (String × ChainData)) (bad : String) (junk : ChainData) (t : Nat),
      parseUintDec64 bad = none →
      findChainInByID (pre ++ (bad, junk) :: post) t = findChainInByID (pre ++ post) t) ∧
    (∀ (entries : List (String × ChainData)) (t : Nat),
      (∀ p ∈ entries, ∀ i, parseUintDec64 p.1 = some i → i ≠ t) →
      findChainInByID entries t = Except.error ChainErr.errChainNotFound) ∧
    (∀ (doc : List (String × CacheField)) (t : Nat),
      (∀ p ∈ doc, p.1 ≠ "byId") →
      loadChainByID doc t = Except.error ChainErr.errChainNotFound) :=
  ⟨fun pre post bad junk t hbad => findChainInByID_skip pre post bad junk hbad t,
   fun _ _ h => findChainInByID_notFound h,
   fun _ _ h => loadChainByID_noByID h⟩

/-- C9 witness: an unparseable key is skipped and a later target is
still found. -/
theorem claim9_locator_skips_witness :
    findChainInByID
      [("not-a-number",
        { name := "Bogus", chain := "", rpcs := [],
          nativeCurrency := { name := "", symbol := "", decimals := 0 },
          shortName := "", chainID := 0, explorers := [], chainSlug := "" }),
       ("7",
        { name := "Target", chain := "", rpcs := [],
          nativeCurrency := { name := "", symbol := "", decimals := 0 },
          shortName := "", chainID := 7, explorers := [], chainSlug := "" })] 7 =
      Except.ok
        { name := "Target", chain := "", rpcs := [],
          nativeCurrency := { name := "", symbol := "", decimals := 0 },
          shortName := "", chainID := 7, explorers := [], chainSlug := "" } := by
  have h := claim9_locator_skips.1 []
    [("7",
      { name := "Target", chain := "", rpcs := [],
        nativeCurrency := { name := "", symbol := "", decimals := 0 },
        shortName := "", chainID := 7, explorers := [], chainSlug := "" })]
    "not-a-number"
    { name := "Bogus", chain := "", rpcs := [],
      nativeCurrency := { name := "", symbol := "", decimals := 0 },
      shortName := "", chainID := 0, explorers := [], chainSlug := "" }
    7 (by decide)
  exact h.trans (by decide)

/-- C10 (confirmed): `normalizeChainName` is idempotent, and a query
whose normalization is an alias key of the name index is resolved by
the exact-match tier of `findChainIDByName`. -/
theorem claim10_normalize_idem :
    (∀ s, normalizeChainName (normalizeChainName s) = normalizeChainName s) ∧
    (∀ (m : List (String × Nat)) (q : String) (id : Nat),
      lookupA m (normalizeChainName q) = some id →
      findChainIDByName m (normalizeChainName q) = Except.ok id) := by
  refine ⟨normalizeChainName_idem_data, ?_⟩
  intro m q id h
  rw [findChainIDByName, h]

/-- C10 witness: a mixed-case query normalizes onto its alias key and
resolves exactly. -/
theorem claim10_normalize_idem_witness :
    findChainIDByName [("gnosis", 100)] (normalizeChainName " Gnosis ") =
      Except.ok 100 := by
  exact claim10_normalize_idem.2 [("gnosis", 100)] " Gnosis " 100 (by decide)

end ChainRpc
